import Mathlib

/-!
Verification of the query-builder / SQL-compiler core (src/index.ts) against
its natural-language specification.

The TypeScript source is shallowly embedded:

* JS values that can be bound as SQL parameters become the inductive `Value`
  (JS `undefined` is `Value.jsUndefined`, pushed verbatim by the compiler when a
  condition node carries no value).
* The mutable compiler instance fields `params` / `paramIndex`
  (src/index.ts lines 302-303) become the explicit state record `CompState`
  threaded through every compilation function.
* Template-literal string building becomes `String` append; `Array.join`
  becomes `sjoin`.
* `WhereNode` mirrors the TS interface: the tag plus four optional fields.
-/

set_option autoImplicit false

namespace SqlTs

/-- A JS runtime value as it can appear in `WhereNode.value` / `params`. -/
inductive Value where
  | str (s : String)
  | num (n : Int)
  | bool (b : Bool)
  | null
  | list (vs : List Value)
  | jsUndefined

/-- The `Operator` string union from src/index.ts line 6. -/
inductive Operator where
  | eq | ne | gt | lt | gte | lte | like | inOp | isNull | isNotNull
  deriving DecidableEq, Repr

/-- Rendering of an `Operator` value as its TS string literal. -/
def Operator.render : Operator → String
  | .eq => "="
  | .ne => "!="
  | .gt => ">"
  | .lt => "<"
  | .gte => ">="
  | .lte => "<="
  | .like => "LIKE"
  | .inOp => "IN"
  | .isNull => "IS NULL"
  | .isNotNull => "IS NOT NULL"

/-- The `type` tag of a `WhereNode` (src/index.ts line 68). -/
inductive NodeType where
  | condition | and | or | not
  deriving DecidableEq, Repr

/-- `interface WhereNode` (src/index.ts lines 67-73): a tag plus four
optional fields.  `children` may recursively hold further nodes. -/
inductive WhereNode where
  | mk (type : NodeType) (field : Option String) (op : Option Operator)
       (value : Option Value) (children : Option (List WhereNode))

def WhereNode.type : WhereNode → NodeType
  | .mk t _ _ _ _ => t

def WhereNode.field : WhereNode → Option String
  | .mk _ f _ _ _ => f

def WhereNode.op : WhereNode → Option Operator
  | .mk _ _ o _ _ => o

def WhereNode.value : WhereNode → Option Value
  | .mk _ _ _ v _ => v

def WhereNode.children : WhereNode → Option (List WhereNode)
  | .mk _ _ _ _ c => c

/-- The mutable fields of `SQLCompiler` (src/index.ts lines 302-303). -/
structure CompState where
  params : List Value
  paramIndex : Nat

/-- JS template-literal rendering of a possibly-undefined string. -/
def jsStr : Option String → String
  | some s => s
  | none => "undefined"

/-- JS template-literal rendering of a possibly-undefined operator. -/
def jsOp : Option Operator → String
  | some o => o.render
  | none => "undefined"

/-- JS `x || y` on strings: the empty string is falsy. -/
def jsOrElse (s d : String) : String :=
  if s = "" then d else s

/-- JS `Array.prototype.join(sep)`. -/
def sjoin (sep : String) : List String → String
  | [] => ""
  | [s] => s
  | s :: rest => s ++ sep ++ sjoin sep rest

/-- Decimal digit characters of a natural number, most significant
first; `fuel`-structured so that the kernel can evaluate it (any
`fuel ≥ n` yields the digits of `n`). -/
def natDigitsAux : Nat → Nat → List Char → List Char
  | 0, n, acc => Nat.digitChar n :: acc
  | fuel + 1, n, acc =>
    if n < 10 then Nat.digitChar n :: acc
    else natDigitsAux fuel (n / 10) (Nat.digitChar (n % 10) :: acc)

/-- Decimal digit characters of `n`, most significant first. -/
def natDigits (n : Nat) : List Char :=
  natDigitsAux n n []

/-- Decimal rendering of a natural number (JS number-to-string for the
non-negative integers that occur as placeholder indices and limits). -/
def natRepr (n : Nat) : String :=
  ⟨natDigits n⟩

/-- The array passed to `IN`: `node.value as any[]`.  When `value` is not
an array the TS code would throw a `TypeError` inside `Array.map`; we
return `[]` there and exclude that case through `goodNode` in every
theorem that quantifies over node trees. -/
def valueAsList : Option Value → List Value
  | some (.list vs) => vs
  | _ => []

/-- The value pushed by `this.params.push(node.value)`. -/
def jsVal : Option Value → Value
  | some v => v
  | none => .jsUndefined

/-- The `IN` branch (src/index.ts lines 381-384): for each element push the
individual value, emit `$` followed by the current index, and increment. -/
def inPlaceholders : List Value → CompState → List String × CompState
  | [], st => ([], st)
  | v :: vs, st =>
    let st1 : CompState := ⟨st.params ++ [v], st.paramIndex⟩
    let ph := "$" ++ natRepr st1.paramIndex
    let st2 : CompState := ⟨st1.params, st1.paramIndex + 1⟩
    let rest := inPlaceholders vs st2
    (ph :: rest.1, rest.2)

mutual

/-- `SQLCompiler.compileWhereNode` (src/index.ts lines 373-402), with the
mutable `this.params` / `this.paramIndex` threaded as `CompState`. -/
def compileWhereNode : WhereNode → CompState → String × CompState
  | .mk ty f op v ch, st =>
    match ty with
    | .condition =>
      if op = some .isNull ∨ op = some .isNotNull then
        (jsStr f ++ " " ++ jsOp op, st)
      else if op = some .inOp then
        let ps := inPlaceholders (valueAsList v) st
        (jsStr f ++ " IN (" ++ sjoin ", " ps.1 ++ ")", ps.2)
      else
        (jsStr f ++ " " ++ jsOp op ++ " $" ++ natRepr st.paramIndex,
         ⟨st.params ++ [jsVal v], st.paramIndex + 1⟩)
    | .and =>
      match ch with
      | none => ("(undefined)", st)
      | some l =>
        let r := compileWhereList l st
        ("(" ++ sjoin " AND " r.1 ++ ")", r.2)
    | .or =>
      match ch with
      | none => ("(undefined)", st)
      | some l =>
        let r := compileWhereList l st
        ("(" ++ sjoin " OR " r.1 ++ ")", r.2)
    | .not =>
      match ch with
      | none => ("NOT (undefined)", st)
      | some l =>
        let r := compileWhereList l st
        ("NOT (" ++ sjoin " " r.1 ++ ")", r.2)

/-- The state-threaded `nodes.map(node => this.compileWhereNode(node))`. -/
def compileWhereList : List WhereNode → CompState → List String × CompState
  | [], st => ([], st)
  | n :: ns, st =>
    let r := compileWhereNode n st
    let rest := compileWhereList ns r.2
    (r.1 :: rest.1, rest.2)

end

/-- `SQLCompiler.compileWhereNodes` (src/index.ts lines 367-371): the
top-level predicate list is joined with `" AND "` and, unlike an explicit
`AND` node, is not parenthesized. -/
def compileWhereNodes (ns : List WhereNode) (st : CompState) : String × CompState :=
  if ns.length = 0 then ("", st)
  else
    let r := compileWhereList ns st
    (sjoin " AND " r.1, r.2)

/-- Join kind (src/index.ts line 76). -/
inductive JoinType where
  | inner | left | right | full
  deriving DecidableEq

def JoinType.render : JoinType → String
  | .inner => "INNER"
  | .left => "LEFT"
  | .right => "RIGHT"
  | .full => "FULL"

/-- The `on` record of a `JoinNode`. -/
structure OnClause where
  left : String
  right : String
  deriving DecidableEq

/-- `interface JoinNode` (src/index.ts lines 75-80). -/
structure JoinNode where
  type : JoinType
  table : String
  onClause : OnClause
  aliasName : Option String
  deriving DecidableEq

/-- Sort direction (src/index.ts line 84). -/
inductive Direction where
  | asc | desc
  deriving DecidableEq

def Direction.render : Direction → String
  | .asc => "ASC"
  | .desc => "DESC"

/-- `interface OrderByNode` (src/index.ts lines 82-85). -/
structure OrderByNode where
  column : String
  direction : Direction
  deriving DecidableEq

/-- Statement kind (src/index.ts line 54); the compiler never branches on
it and always renders a SELECT. -/
inductive StmtType where
  | select | insert | update | delete
  deriving DecidableEq

mutual

/-- `interface QueryAST` (src/index.ts lines 53-65).  Field order follows
the interface: type, table, columns, where, joins, orderBy, groupBy,
having, limit, offset, with.  `limit` and `offset` are modelled as `Nat`
(the claims only exercise non-negative integers). -/
inductive QueryAST where
  | mk (type : StmtType) (table : String)
       (columns : Option (List String))
       (whereNodes : Option (List WhereNode))
       (joins : Option (List JoinNode))
       (orderBy : Option (List OrderByNode))
       (groupBy : Option (List String))
       (having : Option (List WhereNode))
       (limit : Option Nat) (offset : Option Nat)
       (withCTEs : Option (List CTENode))

/-- `interface CTENode` (src/index.ts lines 87-90). -/
inductive CTENode where
  | mk (name : String) (query : QueryAST)

end

def QueryAST.table : QueryAST → String
  | .mk _ t _ _ _ _ _ _ _ _ _ => t

def QueryAST.columns : QueryAST → Option (List String)
  | .mk _ _ c _ _ _ _ _ _ _ _ => c

def QueryAST.whereNodes : QueryAST → Option (List WhereNode)
  | .mk _ _ _ w _ _ _ _ _ _ _ => w

def QueryAST.joins : QueryAST → Option (List JoinNode)
  | .mk _ _ _ _ j _ _ _ _ _ _ => j

def QueryAST.orderBy : QueryAST → Option (List OrderByNode)
  | .mk _ _ _ _ _ o _ _ _ _ _ => o

def QueryAST.groupBy : QueryAST → Option (List String)
  | .mk _ _ _ _ _ _ g _ _ _ _ => g

def QueryAST.having : QueryAST → Option (List WhereNode)
  | .mk _ _ _ _ _ _ _ h _ _ _ => h

def QueryAST.limit : QueryAST → Option Nat
  | .mk _ _ _ _ _ _ _ _ l _ _ => l

def QueryAST.offset : QueryAST → Option Nat
  | .mk _ _ _ _ _ _ _ _ _ o _ => o

def QueryAST.withCTEs : QueryAST → Option (List CTENode)
  | .mk _ _ _ _ _ _ _ _ _ _ w => w

def CTENode.name : CTENode → String
  | .mk n _ => n

def CTENode.query : CTENode → QueryAST
  | .mk _ q => q

/-- The AST built by the `QueryBuilder` constructor (src/index.ts lines
104-111): SELECT on the given table, with `columns`, `where`, `joins`,
`orderBy` initialized to empty arrays and everything else undefined. -/
def newSelectAST (table : String) : QueryAST :=
  .mk .select table (some []) (some []) (some []) (some []) none none none none none

/-- The projection expression (src/index.ts line 322): join the columns
with a comma separator, falling back to `*` when the list is undefined
or when the join result is the empty string (JS falsiness). -/
def selectColsSql (cols : Option (List String)) : String :=
  match cols with
  | none => "*"
  | some cs => jsOrElse (sjoin ", " cs) "*"

/-- One join clause as appended by the forEach body (src/index.ts lines
327-330). -/
def renderJoin (j : JoinNode) : String :=
  " " ++ j.type.render ++ " JOIN " ++ j.table ++ " ON " ++ j.onClause.left ++ " = " ++ j.onClause.right

/-- The JOINS section (src/index.ts lines 326-331). -/
def joinsSql (js : Option (List JoinNode)) : String :=
  match js with
  | some l => if 0 < l.length then String.join (l.map renderJoin) else ""
  | none => ""

/-- A predicate section (`WHERE` at lines 334-337, `HAVING` at lines
345-348): emitted only when the list exists and is non-empty. -/
def predSection (kw : String) (ws : Option (List WhereNode)) (st : CompState) :
    String × CompState :=
  match ws with
  | some l =>
    if 0 < l.length then
      let r := compileWhereNodes l st
      (kw ++ r.1, r.2)
    else ("", st)
  | none => ("", st)

/-- The GROUP BY section (src/index.ts lines 340-342). -/
def groupBySql (g : Option (List String)) : String :=
  match g with
  | some l => if 0 < l.length then " GROUP BY " ++ sjoin ", " l else ""
  | none => ""

/-- The ORDER BY section (src/index.ts lines 351-354). -/
def orderBySql (o : Option (List OrderByNode)) : String :=
  match o with
  | some l =>
    if 0 < l.length then
      " ORDER BY " ++ sjoin ", " (l.map fun c => c.column ++ " " ++ c.direction.render)
    else ""
  | none => ""

/-- The LIMIT section (src/index.ts lines 357-359). -/
def limitSql (l : Option Nat) : String :=
  match l with
  | some n => " LIMIT " ++ natRepr n
  | none => ""

/-- The OFFSET section (src/index.ts lines 360-362). -/
def offsetSql (o : Option Nat) : String :=
  match o with
  | some n => " OFFSET " ++ natRepr n
  | none => ""

mutual

/-- `SQLCompiler.compile` (src/index.ts lines 305-365).  The incoming
state is the current value of the mutable instance fields; lines 306-307
overwrite them with `[]` and `1` at every entry — including the recursive
entries made for each CTE at line 314, whose returned `params` are
discarded while the post-call instance state is kept. -/
def compile : QueryAST → CompState → (String × List Value) × CompState
  | .mk _ tbl cols wh js ob gb hv lim off wth, _st0 =>
    let st : CompState := ⟨[], 1⟩
    let cte := cteSection wth st
    let sel := "SELECT " ++ selectColsSql cols ++ " FROM " ++ tbl
    let whr := predSection " WHERE " wh cte.2
    let hav := predSection " HAVING " hv whr.2
    let sql := cte.1 ++ sel ++ joinsSql js ++ whr.1 ++ groupBySql gb ++ hav.1
               ++ orderBySql ob ++ limitSql lim ++ offsetSql off
    ((sql, hav.2.params), hav.2)

/-- The WITH section (src/index.ts lines 312-318). -/
def cteSection : Option (List CTENode) → CompState → String × CompState
  | some ctes, st =>
    if 0 < ctes.length then
      let r := compileCTEList ctes st
      ("WITH " ++ sjoin ", " r.1 ++ " ", r.2)
    else ("", st)
  | none, st => ("", st)

/-- The state-threaded `ast.with.map(cte => ...)` (src/index.ts lines
313-316): each CTE body is compiled by a recursive `compile` call whose
returned parameter list is discarded (only `sql` is destructured). -/
def compileCTEList : List CTENode → CompState → List String × CompState
  | [], st => ([], st)
  | .mk name q :: cs, st =>
    let r := compile q st
    let rest := compileCTEList cs r.2
    ((name ++ " AS (" ++ r.1.1 ++ ")") :: rest.1, rest.2)

end

/-- `QueryBuilder.toSQL` (src/index.ts lines 186-189): a fresh
`SQLCompiler` (params `[]`, paramIndex `1`) compiles the current AST. -/
def toSQL (ast : QueryAST) : String × List Value :=
  (compile ast ⟨[], 1⟩).1

/-- Relation cardinality tag (src/index.ts line 25); informational only. -/
inductive RelType where
  | oneToOne | oneToMany | manyToMany
  deriving DecidableEq

/-- `interface Relation` (src/index.ts lines 22-28).  `from` and `to`
are reserved tokens in Lean, hence `from_` and `to_`. -/
structure Relation where
  from_ : String
  to_ : String
  type : RelType
  foreignKey : String
  references : String
  deriving DecidableEq

/-- The predicate used by `this.relations.find` (src/index.ts lines
131-134): a relation matches when it links `table` and `t` in either
direction. -/
def relMatches (table t : String) (r : Relation) : Bool :=
  (r.from_ == table && r.to_ == t) || (r.to_ == table && r.from_ == t)

/-!
### Builder-side model with JS reference semantics

`QueryBuilder.with` (src/index.ts lines 176-183) pushes
`{name, query: subquery.ast}` — the AST **object** of the sub-builder,
not a copy.  To state claims about aliasing we model the mutable
AST as a slot in a heap (`Heap`, indexed by `Nat` addresses) and a CTE
binding as a `(name, address)` pair.  `BAst` therefore mirrors
`QueryAST` except that its `with` list holds addresses.  The compiler
claims use the value tree `QueryAST`, which is what the object graph
denotes once dereferenced at compile time.
-/

/-- A builder-owned AST whose CTE bindings are heap addresses. -/
structure BAst where
  type : StmtType
  table : String
  columns : Option (List String)
  whereNodes : Option (List WhereNode)
  joins : Option (List JoinNode)
  orderBy : Option (List OrderByNode)
  groupBy : Option (List String)
  having : Option (List WhereNode)
  limit : Option Nat
  offset : Option Nat
  withRefs : Option (List (String × Nat))

/-- The AST built by the `QueryBuilder` constructor (src/index.ts lines
104-111), builder-side. -/
def BAst.new (table : String) : BAst :=
  ⟨.select, table, some [], some [], some [], some [], none, none, none, none, none⟩

/-- The object store: one mutable AST per live builder. -/
abbrev Heap := List BAst

/-- Dereference a builder address. -/
def hGet (h : Heap) (i : Nat) : BAst :=
  List.getD h i (BAst.new "")

/-- Overwrite a builder address (models mutation of `this.ast`). -/
def hSet (h : Heap) (i : Nat) (a : BAst) : Heap :=
  List.set h i a

/-- `QueryBuilder.select` (src/index.ts lines 115-118): replaces the
projection list. -/
def bselect (h : Heap) (b : Nat) (cols : List String) : Heap :=
  hSet h b { hGet h b with columns := some cols }

/-- `QueryBuilder.where` (src/index.ts lines 121-124): appends to the
WHERE list (an undefined list is treated as empty first). -/
def bwhere (h : Heap) (b : Nat) (conds : List WhereNode) : Heap :=
  hSet h b { hGet h b with whereNodes := some ((hGet h b).whereNodes.getD [] ++ conds) }

/-- `QueryBuilder.limit` (src/index.ts lines 165-168). -/
def blimit (h : Heap) (b : Nat) (n : Nat) : Heap :=
  hSet h b { hGet h b with limit := some n }

/-- `QueryBuilder.with` (src/index.ts lines 176-183): ensures the `with`
list exists, then pushes `{name, query: subquery.ast}` where the query
field is the AST object of the sub-builder — modelled as its address. -/
def bwith (h : Heap) (b : Nat) (name : String) (s : Nat) : Heap :=
  hSet h b { hGet h b with withRefs := some ((hGet h b).withRefs.getD [] ++ [(name, s)]) }

/-- `QueryBuilder.join` (src/index.ts lines 127-150): look up a relation
in either direction; with none, throw (`Except.error`, so the heap is
left untouched); otherwise push one join clause whose on-clause is
`<currentTable>.<foreignKey> = <joinedTable>.<references>`.  The push
uses optional chaining: an undefined `joins` list is silently skipped. -/
def bjoin (rels : List Relation) (h : Heap) (b : Nat) (table : String) (ty : JoinType) :
    Except String Heap :=
  let ast := hGet h b
  match rels.find? (relMatches ast.table table) with
  | none => .error ("No relation defined between " ++ ast.table ++ " and " ++ table)
  | some r =>
    let clause : JoinNode :=
      ⟨ty, table, ⟨ast.table ++ "." ++ r.foreignKey, table ++ "." ++ r.references⟩, none⟩
    match ast.joins with
    | none => .ok h
    | some js => .ok (hSet h b { ast with joins := some (js ++ [clause]) })

/-- The named sub-queries stored in the model of builder `b`, as observed by
any reader (compile included): each stored address dereferenced in the
current heap. -/
def storedSubs (h : Heap) (b : Nat) : List (String × BAst) :=
  ((hGet h b).withRefs.getD []).map fun p => (p.1, hGet h p.2)

/-- A post-`with` mutation of a sub-builder, as performed through the
public fluent API. -/
inductive BuilderOp where
  | selectOp (cols : List String)
  | whereOp (conds : List WhereNode)
  | limitOp (n : Nat)

/-- Run a `BuilderOp` against builder `i`. -/
def applyOp (op : BuilderOp) (h : Heap) (i : Nat) : Heap :=
  match op with
  | .selectOp cols => bselect h i cols
  | .whereOp conds => bwhere h i conds
  | .limitOp n => blimit h i n

/-- What a `BuilderOp` does to the affected AST value. -/
def applyOpAst (op : BuilderOp) (a : BAst) : BAst :=
  match op with
  | .selectOp cols => { a with columns := some cols }
  | .whereOp conds => { a with whereNodes := some (a.whereNodes.getD [] ++ conds) }
  | .limitOp n => { a with limit := some n }

/-!
### Condition factories

`createConditions` (src/index.ts lines 210-295).  Field names come
validated from the schema layer; values are JS runtime values.  The TS
`in` factory is `Conditions.inCond` (`in` is a Lean keyword).
-/

namespace Conditions

def eq (field : String) (value : Value) : WhereNode :=
  .mk .condition (some field) (some .eq) (some value) none

def ne (field : String) (value : Value) : WhereNode :=
  .mk .condition (some field) (some .ne) (some value) none

def gt (field : String) (value : Value) : WhereNode :=
  .mk .condition (some field) (some .gt) (some value) none

def lt (field : String) (value : Value) : WhereNode :=
  .mk .condition (some field) (some .lt) (some value) none

def gte (field : String) (value : Value) : WhereNode :=
  .mk .condition (some field) (some .gte) (some value) none

def lte (field : String) (value : Value) : WhereNode :=
  .mk .condition (some field) (some .lte) (some value) none

def like (field : String) (pattern : String) : WhereNode :=
  .mk .condition (some field) (some .like) (some (.str pattern)) none

def inCond (field : String) (values : List Value) : WhereNode :=
  .mk .condition (some field) (some .inOp) (some (.list values)) none

def isNull (field : String) : WhereNode :=
  .mk .condition (some field) (some .isNull) none none

def isNotNull (field : String) : WhereNode :=
  .mk .condition (some field) (some .isNotNull) none none

def and (conditions : List WhereNode) : WhereNode :=
  .mk .and none none none (some conditions)

def or (conditions : List WhereNode) : WhereNode :=
  .mk .or none none none (some conditions)

def not (condition : WhereNode) : WhereNode :=
  .mk .not none none none (some [condition])

end Conditions

/-- A CTE body: `SELECT * FROM t WHERE f = v`. -/
def cteBodyAST (t f : String) (v : Int) : QueryAST :=
  .mk .select t (some []) (some [Conditions.eq f (.num v)]) (some []) (some [])
    none none none none none

/-- A query with two sibling named sub-queries, each binding one
parameter, plus one outer parameter — the smallest input on which the
required continuous parameter stream and the implemented per-CTE state
reset diverge. -/
def twoCTEAST : QueryAST :=
  .mk .select "m" (some []) (some [Conditions.eq "z" (.num 3)]) (some []) (some [])
    none none none none
    (some [.mk "c1" (cteBodyAST "t" "x" 1), .mk "c2" (cteBodyAST "u" "y" 2)])

/-- Two live builders: address 0 owns a query on `posts`, address 1 owns
a query on `users` (the sub-builder later bound via `with`). -/
def c5Heap : Heap := [BAst.new "posts", BAst.new "users"]

/-!
### Placeholder scanner

To state textual claims about `$N` placeholders we scan the emitted SQL:
a `$` starts a placeholder whose ordinal is the maximal run of decimal
digits that follows.  `scanS s` lists the ordinals appearing in `s`, in
textual order.
-/

/-- Numeric value of a decimal digit character. -/
def digitVal (c : Char) : Nat :=
  c.toNat - 48

/-- Extend a decimal accumulator by one digit character. -/
def pushDigit (x : Nat) (c : Char) : Nat :=
  10 * x + digitVal c

/-- Core scan: `acc` is `some x` while inside the digits of a
placeholder whose value so far is `x`. -/
def scanPhA : List Char → Option Nat → List Nat
  | [], none => []
  | [], some n => [n]
  | c :: cs, none =>
    if c = '$' then scanPhA cs (some 0) else scanPhA cs none
  | c :: cs, some n =>
    if c.isDigit then scanPhA cs (some (pushDigit n c))
    else if c = '$' then n :: scanPhA cs (some 0)
    else n :: scanPhA cs none

/-- The list of `$N` ordinals occurring in a string, in textual order. -/
def scanS (s : String) : List Nat :=
  scanPhA s.data none

/-- `true` when the string contains no `$` (so it contributes no
placeholders). -/
def noDollar (s : String) : Bool :=
  s.data.all fun c => !(c == '$')

/-- `true` when the list does not start with a decimal digit (so that
appending it after a placeholder cannot extend the number of that
placeholder). -/
def headNotDigit : List Char → Bool
  | [] => true
  | c :: _ => !c.isDigit

/-!
### Well-formed predicate trees

`goodNode` carves out the trees reachable through the public factory
functions, restricted to `$`-free field names: a condition carries a
field name without `$`; an `IN` condition carries an array value (for
any other value the TS code would throw inside `Array.map`); a
composite carries a children list.  All `createConditions` outputs with
`$`-free fields satisfy it.
-/

mutual

def goodNode : WhereNode → Bool
  | .mk ty f op v ch =>
    match ty with
    | .condition =>
      (match f with
       | some s => noDollar s
       | none => false) &&
      (match op, v with
       | some .inOp, some (.list _) => true
       | some .inOp, _ => false
       | _, _ => true)
    | _ =>
      match ch with
      | some l => goodList l
      | none => false

def goodList : List WhereNode → Bool
  | [] => true
  | n :: ns => goodNode n && goodList ns

end

@[simp]
theorem CompState.params_mk (p : List Value) (i : Nat) :
    (CompState.mk p i).params = p := rfl

@[simp]
theorem CompState.paramIndex_mk (p : List Value) (i : Nat) :
    (CompState.mk p i).paramIndex = i := rfl

@[simp]
theorem noDollar_append (a b : String) :
    noDollar (a ++ b) = (noDollar a && noDollar b) := by
  simp [noDollar, List.all_append]

theorem scanPhA_append_noDollar {a : List Char} (b : List Char)
    (h : ∀ c ∈ a, ¬c = '$') : scanPhA (a ++ b) none = scanPhA b none := by
  induction a with
  | nil => rfl
  | cons c cs ih =>
    have hc : ¬c = '$' := h c (by simp)
    simp only [List.cons_append, scanPhA, if_neg hc]
    exact ih fun c hc => h c (by simp [hc])

/-- Scanning distributes over append when the right part does not start
with a digit. -/
theorem scanPhA_append {b : List Char} (a : List Char)
    (hb : headNotDigit b = true) :
    scanPhA (a ++ b) none = scanPhA a none ++ scanPhA b none ∧
      ∀ n, scanPhA (a ++ b) (some n) = scanPhA a (some n) ++ scanPhA b none := by
  induction a with
  | nil =>
    refine ⟨rfl, fun n => ?_⟩
    cases b with
    | nil => rfl
    | cons c cs =>
      have hc : c.isDigit = false := by
        simpa [headNotDigit] using hb
      by_cases hdol : c = '$' <;>
        simp [scanPhA, hc, hdol]
  | cons c cs ih =>
    constructor
    · by_cases hdol : c = '$'
      · simpa [scanPhA, hdol] using ih.2 0
      · simpa [scanPhA, hdol] using ih.1
    · intro n
      cases hdig : c.isDigit with
      | true => simpa [scanPhA, hdig] using ih.2 (pushDigit n c)
      | false =>
        by_cases hdol : c = '$'
        · simpa [scanPhA, hdig, hdol] using ih.2 0
        · simpa [scanPhA, hdig, hdol] using ih.1

/-- Scanning a run of digit characters extends the open accumulator. -/
theorem scanPhA_digits {ds : List Char} (b : List Char)
    (h : ∀ c ∈ ds, c.isDigit = true) (a : Nat) :
    scanPhA (ds ++ b) (some a) = scanPhA b (some (ds.foldl pushDigit a)) := by
  induction ds generalizing a with
  | nil => rfl
  | cons c cs ih =>
    have hc : c.isDigit = true := h c (by simp)
    simp only [List.cons_append, scanPhA, if_pos hc, List.foldl_cons]
    exact ih (fun c hc => h c (by simp [hc])) _

theorem scanS_append_noDollar (a b : String) (h : noDollar a = true) :
    scanS (a ++ b) = scanS b := by
  have h' : ∀ c ∈ a.data, ¬c = '$' := by
    simpa [noDollar, List.all_eq_true] using h
  simpa [scanS] using scanPhA_append_noDollar b.data h'

theorem scanS_append (a b : String) (hb : headNotDigit b.data = true) :
    scanS (a ++ b) = scanS a ++ scanS b := by
  simpa [scanS] using (scanPhA_append a.data hb).1

theorem scanS_noDollar (s : String) (h : noDollar s = true) : scanS s = [] := by
  have := scanS_append_noDollar s "" h
  simpa [scanS] using this

theorem digitVal_digitChar {d : Nat} (h : d < 10) :
    digitVal (Nat.digitChar d) = d := by
  interval_cases d <;> decide

theorem digitChar_isDigit {d : Nat} (h : d < 10) :
    (Nat.digitChar d).isDigit = true := by
  interval_cases d <;> decide

theorem natDigitsAux_append {fuel n : Nat} (acc : List Char) (h : n ≤ fuel) :
    natDigitsAux fuel n acc = natDigitsAux fuel n [] ++ acc := by
  induction fuel generalizing n acc with
  | zero => rfl
  | succ fuel ih =>
    by_cases hn : n < 10
    · simp [natDigitsAux, hn]
    · have hrec : n / 10 ≤ fuel := by
        have : n / 10 < n := Nat.div_lt_self (by omega) (by omega)
        omega
      simp only [natDigitsAux, if_neg hn]
      rw [ih _ hrec, ih [Nat.digitChar (n % 10)] hrec, List.append_assoc]
      rfl

theorem natDigits_all_digits {fuel n : Nat} (h : n ≤ fuel) :
    ∀ c ∈ natDigitsAux fuel n [], c.isDigit = true := by
  induction fuel generalizing n with
  | zero =>
    intro c hc
    have : n = 0 := by omega
    subst this
    simp only [natDigitsAux, List.mem_singleton] at hc
    subst hc
    decide
  | succ fuel ih =>
    intro c hc
    by_cases hn : n < 10
    · simp only [natDigitsAux, if_pos hn, List.mem_singleton] at hc
      subst hc
      exact digitChar_isDigit hn
    · have hrec : n / 10 ≤ fuel := by
        have : n / 10 < n := Nat.div_lt_self (by omega) (by omega)
        omega
      simp only [natDigitsAux, if_neg hn] at hc
      rw [natDigitsAux_append _ hrec] at hc
      rcases List.mem_append.1 hc with hm | hm
      · exact ih hrec c hm
      · simp only [List.mem_singleton] at hm
        subst hm
        exact digitChar_isDigit (by omega)

theorem natDigits_foldl {fuel n : Nat} (h : n ≤ fuel) (a : Nat) :
    (natDigitsAux fuel n []).foldl pushDigit a =
      a * 10 ^ (natDigitsAux fuel n []).length + n := by
  induction fuel generalizing n a with
  | zero =>
    have : n = 0 := by omega
    subst this
    have h48 : (Nat.digitChar 0).toNat = 48 := by decide
    simp [natDigitsAux, pushDigit, digitVal, h48, Nat.mul_comm]
  | succ fuel ih =>
    by_cases hn : n < 10
    · simp [natDigitsAux, if_pos hn, pushDigit, digitVal_digitChar hn]
      ring
    · have hrec : n / 10 ≤ fuel := by
        have : n / 10 < n := Nat.div_lt_self (by omega) (by omega)
        omega
      simp only [natDigitsAux, if_neg hn]
      rw [natDigitsAux_append _ hrec, List.foldl_append, ih hrec,
        List.length_append, List.length_singleton]
      simp only [List.foldl_cons, List.foldl_nil, pushDigit,
        digitVal_digitChar (Nat.mod_lt n (by omega))]
      have : 10 * (a * 10 ^ (natDigitsAux fuel (n / 10) []).length + n / 10)
          + n % 10
          = a * (10 ^ (natDigitsAux fuel (n / 10) []).length * 10)
            + (10 * (n / 10) + n % 10) := by ring
      rw [this, Nat.div_add_mod, ← pow_succ]

/-- Scanning `$` followed by the digits of `n` yields exactly `n`. -/
theorem scanPhA_dollar_digits (n : Nat) :
    scanPhA ('$' :: natDigits n) none = [n] := by
  have hdig := @natDigits_all_digits n n le_rfl
  have hscan := scanPhA_digits [] hdig 0
  simp only [List.append_nil] at hscan
  have hfold := @natDigits_foldl n n le_rfl 0
  simp only [Nat.zero_mul, Nat.zero_add] at hfold
  have hstep : scanPhA ('$' :: natDigits n) none
      = scanPhA (natDigitsAux n n []) (some 0) := by
    simp [scanPhA, natDigits]
  rw [hstep, hscan, hfold]
  rfl

/-- The scan of a rendered placeholder is exactly its ordinal. -/
theorem scanS_placeholder (n : Nat) : scanS ("$" ++ natRepr n) = [n] := by
  have hdata : ("$" ++ natRepr n).data = '$' :: natDigits n := rfl
  show scanPhA ("$" ++ natRepr n).data none = [n]
  rw [hdata]
  exact scanPhA_dollar_digits n

/-- The scan of a `$`-free prefix followed by ` $N` is exactly `N` (the
shape of a compiled comparison condition). -/
theorem scanS_cond_ph (p : String) (hp : noDollar p = true) (n : Nat) :
    scanS (p ++ " $" ++ natRepr n) = [n] := by
  have hd : (p ++ " $" ++ natRepr n).data = p.data ++ (' ' :: '$' :: natDigits n) := by
    simp only [String.data_append, List.append_assoc]
    rfl
  have hp' : ∀ c ∈ p.data, ¬c = '$' := by
    simpa [noDollar, List.all_eq_true] using hp
  show scanPhA (p ++ " $" ++ natRepr n).data none = [n]
  rw [hd, scanPhA_append_noDollar _ hp']
  have : scanPhA (' ' :: '$' :: natDigits n) none
      = scanPhA ('$' :: natDigits n) none := by
    simp [scanPhA]
  rw [this, scanPhA_dollar_digits]

/-- Scanning a JS `join`: each separator blocks digit-merging and holds
no `$`, so the scans of the pieces concatenate. -/
theorem scanS_sjoin (sep : String) (h1 : sep.data ≠ [])
    (h2 : headNotDigit sep.data = true) (h3 : noDollar sep = true)
    (ss : List String) : scanS (sjoin sep ss) = (ss.map scanS).flatten := by
  induction ss with
  | nil => simp [sjoin, scanS, scanPhA]
  | cons s rest ih =>
    cases rest with
    | nil => simp [sjoin]
    | cons s2 rest2 =>
      have hb : headNotDigit (sep ++ sjoin sep (s2 :: rest2)).data = true := by
        cases hd : sep.data with
        | nil => exact absurd hd h1
        | cons c cs =>
          simpa [String.data_append, hd, headNotDigit] using
            (by simpa [headNotDigit, hd] using h2)
      calc scanS (s ++ sep ++ sjoin sep (s2 :: rest2))
          = scanS (s ++ (sep ++ sjoin sep (s2 :: rest2))) := by
            rw [String.append_assoc]
        _ = scanS s ++ scanS (sep ++ sjoin sep (s2 :: rest2)) :=
            scanS_append _ _ hb
        _ = scanS s ++ scanS (sjoin sep (s2 :: rest2)) := by
            rw [scanS_append_noDollar _ _ h3]
        _ = scanS s ++ (List.map scanS (s2 :: rest2)).flatten := by rw [ih]
        _ = (List.map scanS (s :: s2 :: rest2)).flatten := by simp

theorem flatten_map_singleton {α : Type} (l : List α) :
    (l.map fun a => [a]).flatten = l := by
  induction l with
  | nil => rfl
  | cons x xs ih => simp [ih]

theorem noDollar_jsOp (o : Option Operator) : noDollar (jsOp o) = true := by
  cases o with
  | none => decide
  | some op => cases op <;> decide

/-- Closed form of the `IN` placeholder map: the emitted placeholders
are the consecutive ordinals starting at the current index, the pushed
parameters are exactly the array elements in order. -/
theorem inPlaceholders_eq (vs : List Value) (st : CompState) :
    inPlaceholders vs st =
      ((List.range' st.paramIndex vs.length).map fun i => "$" ++ natRepr i,
       ⟨st.params ++ vs, st.paramIndex + vs.length⟩) := by
  induction vs generalizing st with
  | nil =>
    obtain ⟨p, i⟩ := st
    simp [inPlaceholders]
  | cons v vs ih =>
    obtain ⟨p, i⟩ := st
    simp only [inPlaceholders, ih, List.range'_succ, List.map_cons, List.length_cons]
    refine Prod.ext rfl ?_
    simp only []
    refine congrArg₂ CompState.mk (by simp) (by omega)

mutual

/-- State/scan invariant for one predicate node: compilation appends a
block `d` of parameters, advances the index by `d.length`, and the
emitted text contains exactly the placeholders
`paramIndex, …, paramIndex + d.length - 1`, in textual order. -/
theorem scan_whereNode (n : WhereNode) (st : CompState) (h : goodNode n = true) :
    ∃ d : List Value,
      (compileWhereNode n st).2 = ⟨st.params ++ d, st.paramIndex + d.length⟩ ∧
      scanS (compileWhereNode n st).1 = List.range' st.paramIndex d.length := by
  obtain ⟨ty, f, op, v, ch⟩ := n
  cases ty with
  | condition =>
    obtain ⟨p, i⟩ := st
    cases f with
    | none => simp [goodNode] at h
    | some fs =>
      have hfs : noDollar fs = true := by
        have := h
        simp only [goodNode, Bool.and_eq_true] at this
        exact this.1
      by_cases h1 : op = some Operator.isNull ∨ op = some Operator.isNotNull
      · refine ⟨[], ?_, ?_⟩
        · simp [compileWhereNode, if_pos h1]
        · simp only [compileWhereNode, if_pos h1]
          rw [scanS_noDollar]
          · simp
          · simp [jsStr, hfs, noDollar_jsOp, (by decide : noDollar " " = true)]
      · by_cases h2 : op = some Operator.inOp
        · obtain ⟨vs, hv⟩ : ∃ vs, v = some (.list vs) := by
            subst h2
            simp only [goodNode, Bool.and_eq_true] at h
            cases v with
            | none => simp at h
            | some w => cases w <;> simp_all
          subst hv
          refine ⟨vs, ?_, ?_⟩
          · simp [compileWhereNode, if_neg h1, if_pos h2, inPlaceholders_eq, valueAsList]
          · simp only [compileWhereNode, if_neg h1, if_pos h2, inPlaceholders_eq,
              valueAsList, jsStr]
            rw [scanS_append
                (fs ++ " IN (" ++
                  sjoin ", " ((List.range' i vs.length).map fun j => "$" ++ natRepr j))
                ")" (by decide),
              (by decide : scanS ")" = []), List.append_nil,
              String.append_assoc,
              scanS_append_noDollar fs _ hfs,
              scanS_append_noDollar " IN ("
                (sjoin ", " ((List.range' i vs.length).map fun j => "$" ++ natRepr j))
                (by decide),
              scanS_sjoin ", " (by decide) (by decide) (by decide),
              List.map_map]
            have hmap : ∀ x ∈ List.range' i vs.length,
                (scanS ∘ fun j => "$" ++ natRepr j) x = [x] := by
              intro x _
              exact scanS_placeholder x
            rw [List.map_congr_left hmap, flatten_map_singleton]
        · refine ⟨[jsVal v], ?_, ?_⟩
          · simp [compileWhereNode, if_neg h1, if_neg h2]
          · simp only [compileWhereNode, if_neg h1, if_neg h2, jsStr]
            rw [scanS_cond_ph (fs ++ " " ++ jsOp op)
                (by simp [hfs, noDollar_jsOp, show noDollar " " = true from by decide])]
            rfl
  | and =>
    cases ch with
    | none => simp [goodNode] at h
    | some l =>
      have hl : goodList l = true := by simpa [goodNode] using h
      obtain ⟨d, hst, hjoin⟩ := scan_whereList l st hl
      refine ⟨d, ?_, ?_⟩
      · simpa [compileWhereNode] using hst
      · simp only [compileWhereNode]
        rw [scanS_append ("(" ++ sjoin " AND " (compileWhereList l st).1) ")" (by decide),
          (by decide : scanS ")" = []), List.append_nil,
          scanS_append_noDollar "(" (sjoin " AND " (compileWhereList l st).1) (by decide),
          scanS_sjoin " AND " (by decide) (by decide) (by decide),
          hjoin]
  | or =>
    cases ch with
    | none => simp [goodNode] at h
    | some l =>
      have hl : goodList l = true := by simpa [goodNode] using h
      obtain ⟨d, hst, hjoin⟩ := scan_whereList l st hl
      refine ⟨d, ?_, ?_⟩
      · simpa [compileWhereNode] using hst
      · simp only [compileWhereNode]
        rw [scanS_append ("(" ++ sjoin " OR " (compileWhereList l st).1) ")" (by decide),
          (by decide : scanS ")" = []), List.append_nil,
          scanS_append_noDollar "(" (sjoin " OR " (compileWhereList l st).1) (by decide),
          scanS_sjoin " OR " (by decide) (by decide) (by decide),
          hjoin]
  | not =>
    cases ch with
    | none => simp [goodNode] at h
    | some l =>
      have hl : goodList l = true := by simpa [goodNode] using h
      obtain ⟨d, hst, hjoin⟩ := scan_whereList l st hl
      refine ⟨d, ?_, ?_⟩
      · simpa [compileWhereNode] using hst
      · simp only [compileWhereNode]
        rw [scanS_append ("NOT (" ++ sjoin " " (compileWhereList l st).1) ")" (by decide),
          (by decide : scanS ")" = []), List.append_nil,
          scanS_append_noDollar "NOT (" (sjoin " " (compileWhereList l st).1) (by decide),
          scanS_sjoin " " (by decide) (by decide) (by decide),
          hjoin]

/-- State/scan invariant for a list of predicate nodes compiled in
sequence (the state-threaded `map`). -/
theorem scan_whereList (ns : List WhereNode) (st : CompState) (h : goodList ns = true) :
    ∃ d : List Value,
      (compileWhereList ns st).2 = ⟨st.params ++ d, st.paramIndex + d.length⟩ ∧
      ((compileWhereList ns st).1.map scanS).flatten = List.range' st.paramIndex d.length := by
  cases ns with
  | nil =>
    obtain ⟨p, i⟩ := st
    exact ⟨[], by simp [compileWhereList], by simp [compileWhereList]⟩
  | cons n ns =>
    have hn : goodNode n = true := by
      simp only [goodList, Bool.and_eq_true] at h
      exact h.1
    have hns : goodList ns = true := by
      simp only [goodList, Bool.and_eq_true] at h
      exact h.2
    obtain ⟨d1, hst1, hscan1⟩ := scan_whereNode n st hn
    obtain ⟨d2, hst2, hscan2⟩ := scan_whereList ns (compileWhereNode n st).2 hns
    rw [hst1] at hst2 hscan2
    simp only [CompState.params_mk, CompState.paramIndex_mk] at hst2
    have hu1 : (compileWhereList (n :: ns) st).1
        = (compileWhereNode n st).1 :: (compileWhereList ns (compileWhereNode n st).2).1 := rfl
    have hu2 : (compileWhereList (n :: ns) st).2
        = (compileWhereList ns (compileWhereNode n st).2).2 := rfl
    refine ⟨d1 ++ d2, ?_, ?_⟩
    · rw [hu2, hst1, hst2]
      refine congrArg₂ CompState.mk (by simp) (by rw [List.length_append]; omega)
    · rw [hu1]
      simp only [List.map_cons, List.flatten_cons, hscan1]
      rw [hst1, hscan2, List.length_append, List.range'_append_1,
        Nat.add_comm d1.length d2.length]

end

theorem stringJoin_concat (l : List String) (s : String) :
    String.join (l ++ [s]) = String.join l ++ s := by
  simp [String.join, List.foldl_append]

theorem hGet_hSet_self (h : Heap) (i : Nat) (a : BAst) (hi : i < h.length) :
    hGet (hSet h i a) i = a := by
  simp [hGet, hSet, List.getD_eq_getElem?_getD, List.getElem?_set_self hi]

theorem hGet_hSet_ne (h : Heap) (i j : Nat) (a : BAst) (hij : j ≠ i) :
    hGet (hSet h j a) i = hGet h i := by
  simp [hGet, hSet, List.getD_eq_getElem?_getD, List.getElem?_set_ne hij]

theorem applyOp_eq_hSet (op : BuilderOp) (h : Heap) (i : Nat) :
    applyOp op h i = hSet h i (applyOpAst op (hGet h i)) := by
  cases op <;> rfl

/-!
### Claim theorems
-/

/-- C1: the specification requires one continuous parameter stream
across sibling named sub-queries — each CTE consumes the next available
placeholder numbers and never restarts at `$1`, and compiler state is
reset only once, at top-level compile entry.  The implementation resets
`this.params`/`this.paramIndex` at every entry of `compile`
(src/index.ts lines 306-307), including the recursive entries made for
each CTE at line 314.  On two sibling CTEs (each with one parameter)
plus one outer parameter, the emitted SQL renders `$1` for both CTEs,
only `$1,$2` overall, and the returned parameter list drops the first
value of the first CTE: the code contradicts the claimed (and clearly intended)
behaviour.  This theorem evaluates the embedded compiler at that
failing input. -/
theorem c1_cte_reset_discards_params :
    compile twoCTEAST ⟨[], 1⟩
      = (("WITH c1 AS (SELECT * FROM t WHERE x = $1), c2 AS (SELECT * FROM u WHERE y = $1) SELECT * FROM m WHERE z = $2",
          [.num 2, .num 3]),
         ⟨[.num 2, .num 3], 3⟩) := rfl

/-- C4: compilation of an unmodified Query Model is deterministic and
idempotent: the result of `compile` does not depend on the incoming
compiler state (lines 306-307 reset it at entry), so repeated
invocations — `toSQL` constructs a fresh compiler each time — return
identical `(sql, params)`. -/
theorem c4_compile_deterministic (ast : QueryAST) (st1 st2 : CompState) :
    compile ast st1 = compile ast st2 ∧ (compile ast st1).1 = toSQL ast := by
  cases ast
  exact ⟨rfl, rfl⟩

/-- C8: a top-level WHERE/HAVING list is the `" AND "`-join of its
individually compiled members with no surrounding parentheses, while
explicit `And`/`Or` nodes wrap the same join (`" AND "`, `" OR "`) in
parentheses; and the example from the specification compiles to exactly
`(status = $1 OR (status = $2 AND age > $3))` with parameters
`["active", "pending", 18]` and final index 4. -/
theorem c8_parenthesization :
    (∀ (ws : List WhereNode) (st : CompState),
      compileWhereNodes ws st
        = (sjoin " AND " (compileWhereList ws st).1, (compileWhereList ws st).2)) ∧
    (∀ (ws : List WhereNode) (st : CompState),
      compileWhereNode (Conditions.and ws) st
        = ("(" ++ sjoin " AND " (compileWhereList ws st).1 ++ ")",
           (compileWhereList ws st).2)) ∧
    (∀ (ws : List WhereNode) (st : CompState),
      compileWhereNode (Conditions.or ws) st
        = ("(" ++ sjoin " OR " (compileWhereList ws st).1 ++ ")",
           (compileWhereList ws st).2)) ∧
    compileWhereNodes
        [Conditions.or [Conditions.eq "status" (.str "active"),
          Conditions.and [Conditions.eq "status" (.str "pending"),
            Conditions.gt "age" (.num 18)]]] ⟨[], 1⟩
      = ("(status = $1 OR (status = $2 AND age > $3))",
         ⟨[.str "active", .str "pending", .num 18], 4⟩) := by
  refine ⟨?_, ?_, ?_, ?_⟩
  · intro ws st
    by_cases hlen : ws.length = 0
    · have hnil : ws = [] := List.length_eq_zero.mp hlen
      subst hnil
      rfl
    · simp [compileWhereNodes, hlen]
  · intro ws st
    rfl
  · intro ws st
    rfl
  · rfl

/-- C10: an `And` or `Or` node with an empty children list — as built by
the public `and()` / `or()` factories with zero arguments — compiles to
the literal text `()` with the compiler state untouched: no placeholder
number is consumed and no value is appended. -/
theorem c10_empty_composite (st : CompState) :
    compileWhereNode (Conditions.and []) st = ("()", st) ∧
    compileWhereNode (Conditions.or []) st = ("()", st) :=
  ⟨rfl, rfl⟩

/-- C2: for every predicate tree compiled by one compile invocation
(whose entry resets the state to `params = []`, `paramIndex = 1`), the
`$N` placeholders occurring in the emitted text are exactly
`$1, …, $k` in textual order with `k` the length of the produced
parameter list — the count matches, the `N`-th placeholder is `$N`
(so its bound value is `params[N-1]`), and no ordinal is reused or
skipped. -/
theorem c2_placeholders_match_params (ws : List WhereNode) (h : goodList ws = true) :
    scanS (compileWhereNodes ws ⟨[], 1⟩).1
      = List.range' 1 (compileWhereNodes ws ⟨[], 1⟩).2.params.length := by
  by_cases hlen : ws.length = 0
  · have hnil : ws = [] := List.length_eq_zero.mp hlen
    subst hnil
    rfl
  · obtain ⟨d, hst, hflat⟩ := scan_whereList ws ⟨[], 1⟩ h
    rw [show (compileWhereNodes ws ⟨[], 1⟩).1
        = sjoin " AND " (compileWhereList ws ⟨[], 1⟩).1 from by
        simp [compileWhereNodes, hlen],
      show (compileWhereNodes ws ⟨[], 1⟩).2
        = (compileWhereList ws ⟨[], 1⟩).2 from by
        simp [compileWhereNodes, hlen],
      scanS_sjoin " AND " (by decide) (by decide) (by decide), hflat, hst]
    simp

/-- Witness for C2 at a concrete tree mixing a comparison and an `IN`
condition: the hypothesis holds and the placeholders are `$1, $2, $3`
for three parameters. -/
theorem c2_witness :
    goodList [Conditions.eq "status" (.str "active"),
        Conditions.inCond "id" [.num 1, .num 2]] = true ∧
    scanS (compileWhereNodes [Conditions.eq "status" (.str "active"),
          Conditions.inCond "id" [.num 1, .num 2]] ⟨[], 1⟩).1
      = List.range' 1 (compileWhereNodes [Conditions.eq "status" (.str "active"),
          Conditions.inCond "id" [.num 1, .num 2]] ⟨[], 1⟩).2.params.length :=
  ⟨by decide, c2_placeholders_match_params _ (by decide)⟩

/-- C3: an `IN` condition over an array of `k` values emits
`<field> IN (…)` containing exactly the `k` consecutive placeholders
starting at the current index, and appends the `k` individual elements —
never the array itself as a single value — to `params` in array order. -/
theorem c3_in_condition (f : String) (vs : List Value) (st : CompState)
    (hf : noDollar f = true) :
    compileWhereNode (Conditions.inCond f vs) st
      = (f ++ " IN (" ++
          sjoin ", " ((List.range' st.paramIndex vs.length).map fun i => "$" ++ natRepr i)
          ++ ")",
         ⟨st.params ++ vs, st.paramIndex + vs.length⟩) ∧
    scanS (compileWhereNode (Conditions.inCond f vs) st).1
      = List.range' st.paramIndex vs.length := by
  have h0 : compileWhereNode (Conditions.inCond f vs) st
      = (f ++ " IN (" ++ sjoin ", " (inPlaceholders vs st).1 ++ ")",
         (inPlaceholders vs st).2) := rfl
  have hunf : compileWhereNode (Conditions.inCond f vs) st
      = (f ++ " IN (" ++
          sjoin ", " ((List.range' st.paramIndex vs.length).map fun i => "$" ++ natRepr i)
          ++ ")",
         ⟨st.params ++ vs, st.paramIndex + vs.length⟩) := by
    rw [h0, inPlaceholders_eq]
  refine ⟨hunf, ?_⟩
  rw [show (compileWhereNode (Conditions.inCond f vs) st).1
      = f ++ " IN (" ++
          sjoin ", " ((List.range' st.paramIndex vs.length).map fun i => "$" ++ natRepr i)
          ++ ")" from by rw [hunf]]
  rw [scanS_append
      (f ++ " IN (" ++
        sjoin ", " ((List.range' st.paramIndex vs.length).map fun i => "$" ++ natRepr i))
      ")" (by decide),
    (by decide : scanS ")" = []), List.append_nil,
    String.append_assoc,
    scanS_append_noDollar f _ hf,
    scanS_append_noDollar " IN ("
      (sjoin ", " ((List.range' st.paramIndex vs.length).map fun i => "$" ++ natRepr i))
      (by decide),
    scanS_sjoin ", " (by decide) (by decide) (by decide), List.map_map]
  have hmap : ∀ x ∈ List.range' st.paramIndex vs.length,
      (scanS ∘ fun j => "$" ++ natRepr j) x = [x] := fun x _ => scanS_placeholder x
  rw [List.map_congr_left hmap, flatten_map_singleton]

/-- Witness for C3: `status IN` over two string values from index 1. -/
theorem c3_witness :
    noDollar "status" = true ∧
    (compileWhereNode (Conditions.inCond "status" [.str "a", .str "b"]) ⟨[], 1⟩
        = ("status" ++ " IN (" ++
            sjoin ", " ((List.range' 1 2).map fun i => "$" ++ natRepr i) ++ ")",
           ⟨[.str "a", .str "b"], 3⟩) ∧
      scanS (compileWhereNode (Conditions.inCond "status" [.str "a", .str "b"]) ⟨[], 1⟩).1
        = List.range' 1 2) :=
  ⟨by decide, c3_in_condition "status" [.str "a", .str "b"] ⟨[], 1⟩ (by decide)⟩

/-- C6: when no relation is declared between the current table and the
requested table in either direction, `join` raises the relation-not-found
error synchronously — the error is returned by the `join` operation
itself, before any mutation, so no partial join clause is ever appended
and the Query Model is unchanged (the `Except.error` result carries no
updated heap). -/
theorem c6_join_no_relation (rels : List Relation) (h : Heap) (b : Nat)
    (t : String) (ty : JoinType)
    (hfind : rels.find? (relMatches (hGet h b).table t) = none) :
    bjoin rels h b t ty
      = .error ("No relation defined between " ++ (hGet h b).table ++ " and " ++ t) := by
  simp [bjoin, hfind]

/-- Witness for C6: joining `posts` from `users` with an empty relation
list fails with the expected message. -/
theorem c6_witness :
    (([] : List Relation).find? (relMatches (hGet [BAst.new "users"] 0).table "posts")
        = none) ∧
    bjoin [] [BAst.new "users"] 0 "posts" .inner
      = .error "No relation defined between users and posts" :=
  ⟨rfl, c6_join_no_relation [] [BAst.new "users"] 0 "posts" .inner rfl⟩

/-- C7: when a relation matches in either direction, `join` appends
exactly one join clause whose on-clause is
`<currentTable>.<foreignKey> = <joinedTable>.<references>` built from
the matched relation; `joinsSql` renders a clause appended last, last;
and `compile` places the join section — the stored clauses rendered in
list order — between the FROM clause and the WHERE section. -/
theorem c7_join_success (rels : List Relation) (h : Heap) (b : Nat) (t : String)
    (ty : JoinType) (r : Relation) (js : List JoinNode)
    (hfind : rels.find? (relMatches (hGet h b).table t) = some r)
    (hjs : (hGet h b).joins = some js) :
    bjoin rels h b t ty
      = .ok (hSet h b { hGet h b with joins := some (js ++
          [⟨ty, t, ⟨(hGet h b).table ++ "." ++ r.foreignKey, t ++ "." ++ r.references⟩,
            none⟩]) }) ∧
    (∀ (l : List JoinNode) (j : JoinNode),
      joinsSql (some (l ++ [j])) = String.join (l.map renderJoin) ++ renderJoin j) ∧
    (∀ (ast : QueryAST) (st : CompState),
      (compile ast st).1.1
        = (cteSection ast.withCTEs ⟨[], 1⟩).1
          ++ ("SELECT " ++ selectColsSql ast.columns ++ " FROM " ++ ast.table)
          ++ joinsSql ast.joins
          ++ (predSection " WHERE " ast.whereNodes (cteSection ast.withCTEs ⟨[], 1⟩).2).1
          ++ groupBySql ast.groupBy
          ++ (predSection " HAVING " ast.having
               (predSection " WHERE " ast.whereNodes
                 (cteSection ast.withCTEs ⟨[], 1⟩).2).2).1
          ++ orderBySql ast.orderBy ++ limitSql ast.limit ++ offsetSql ast.offset) := by
  refine ⟨?_, ?_, ?_⟩
  · simp [bjoin, hfind, hjs]
  · intro l j
    simp [joinsSql, stringJoin_concat]
  · intro ast st
    cases ast
    rfl

/-- Witness for C7: joining `users` from `posts` over the declared
`posts → users` relation appends the clause with on-clause
`posts.author_id = users.id`. -/
theorem c7_witness :
    (([⟨"posts", "users", .oneToMany, "author_id", "id"⟩] : List Relation).find?
        (relMatches (hGet [BAst.new "posts"] 0).table "users")
      = some ⟨"posts", "users", .oneToMany, "author_id", "id"⟩) ∧
    ((hGet [BAst.new "posts"] 0).joins = some []) ∧
    bjoin [⟨"posts", "users", .oneToMany, "author_id", "id"⟩]
        [BAst.new "posts"] 0 "users" .inner
      = .ok (hSet [BAst.new "posts"] 0
          { hGet [BAst.new "posts"] 0 with joins := some ([] ++
            [⟨.inner, "users", ⟨"posts.author_id", "users.id"⟩, none⟩]) }) :=
  ⟨rfl, rfl,
    (c7_join_success [⟨"posts", "users", .oneToMany, "author_id", "id"⟩]
      [BAst.new "posts"] 0 "users" .inner
      ⟨"posts", "users", .oneToMany, "author_id", "id"⟩ [] rfl rfl).1⟩

/-- C9: a Query Model whose projection is absent or empty renders its
projection as `*`: the projection sub-expression used by `compile`
evaluates to `"*"`, a constructor-fresh model compiles end-to-end to
`SELECT * FROM <table>`, and in general the emitted text carries
`SELECT * FROM <table>` between the CTE section and the join section. -/
theorem c9_empty_projection_star (ast : QueryAST) (st : CompState)
    (h : ast.columns = none ∨ ast.columns = some []) :
    selectColsSql ast.columns = "*" ∧
    (∀ (t : String) (st2 : CompState),
      compile (newSelectAST t) st2 = (("SELECT * FROM " ++ t, []), ⟨[], 1⟩)) ∧
    (compile ast st).1.1
      = (cteSection ast.withCTEs ⟨[], 1⟩).1
        ++ ("SELECT " ++ "*" ++ " FROM " ++ ast.table)
        ++ joinsSql ast.joins
        ++ (predSection " WHERE " ast.whereNodes (cteSection ast.withCTEs ⟨[], 1⟩).2).1
        ++ groupBySql ast.groupBy
        ++ (predSection " HAVING " ast.having
             (predSection " WHERE " ast.whereNodes
               (cteSection ast.withCTEs ⟨[], 1⟩).2).2).1
        ++ orderBySql ast.orderBy ++ limitSql ast.limit ++ offsetSql ast.offset := by
  obtain ⟨ty, tbl, cols, wh, js, ob, gb, hv, lim, off, wth⟩ := ast
  refine ⟨?_, ?_, ?_⟩
  · rcases h with h | h <;>
      (simp only [QueryAST.columns] at h; subst h; rfl)
  · intro t st2
    have hstar : selectColsSql (newSelectAST t).columns = "*" := rfl
    simp [compile, newSelectAST, cteSection, joinsSql, predSection, groupBySql,
      orderBySql, limitSql, offsetSql, selectColsSql, jsOrElse, sjoin]
  · rcases h with h | h <;>
      (simp only [QueryAST.columns] at h; subst h; rfl)

/-- Witness for C9: a constructor-fresh model on `users` has the empty
projection and its projection renders as `*`. -/
theorem c9_witness :
    ((newSelectAST "users").columns = none ∨ (newSelectAST "users").columns = some []) ∧
    selectColsSql (newSelectAST "users").columns = "*" :=
  ⟨Or.inr rfl,
    (c9_empty_projection_star (newSelectAST "users") ⟨[], 1⟩ (Or.inr rfl)).1⟩

/-- C5 counterexample: the claim says a sub-builder bound via
`with(name, s)` is snapshotted, so that a later `limit(5)` on `s` does
not change the named sub-query stored in the outer model.  In the code
`with` pushes `{name, query: subquery.ast}` — the live AST object — so
the stored sub-query observed after the mutation differs from the one
observed at bind time. -/
theorem c5_snapshot_counterexample :
    ¬ storedSubs (blimit (bwith c5Heap 0 "active_users" 1) 1 5) 0
        = storedSubs (bwith c5Heap 0 "active_users" 1) 0 := by
  intro hEq
  have hlim := congrArg (List.map fun p => p.2.limit) hEq
  exact absurd hlim (by decide)

/-- C5 amended: `with(name, s)` captures the Query Model of the sub-builder
by reference, not by deep copy: at bind time the stored named sub-query
is the current model of `s`, and after any further builder operation on
`s` (select/where/limit) the stored sub-query is the mutated model —
the mutation is visible through the model of the outer builder. -/
theorem c5_with_captures_by_reference (h : Heap) (b s : Nat) (name : String)
    (op : BuilderOp) (hbs : b ≠ s) (hb : b < h.length) (hs : s < h.length) :
    (storedSubs (bwith h b name s) b).getLast? = some (name, hGet h s) ∧
    (storedSubs (applyOp op (bwith h b name s) s) b).getLast?
      = some (name, applyOpAst op (hGet h s)) := by
  have hlen1 : (bwith h b name s).length = h.length := by
    simp [bwith, hSet]
  have hb1 : hGet (bwith h b name s) b
      = { hGet h b with
          withRefs := some ((hGet h b).withRefs.getD [] ++ [(name, s)]) } := by
    simpa [bwith] using hGet_hSet_self h b _ hb
  have hs1 : hGet (bwith h b name s) s = hGet h s := by
    simpa [bwith] using hGet_hSet_ne h s b _ hbs
  have hrefs : (hGet (bwith h b name s) b).withRefs.getD []
      = (hGet h b).withRefs.getD [] ++ [(name, s)] := by
    rw [hb1]
    rfl
  constructor
  · simp only [storedSubs, hrefs, List.map_append, List.map_cons, List.map_nil,
      List.getLast?_concat]
    rw [hs1]
  · have hb2 : hGet (applyOp op (bwith h b name s) s) b = hGet (bwith h b name s) b := by
      rw [applyOp_eq_hSet]
      exact hGet_hSet_ne _ b s _ (Ne.symm hbs)
    have hs2 : hGet (applyOp op (bwith h b name s) s) s = applyOpAst op (hGet h s) := by
      rw [applyOp_eq_hSet, hGet_hSet_self _ s _ (by rw [hlen1]; exact hs), hs1]
    simp only [storedSubs, hb2, hrefs, List.map_append, List.map_cons, List.map_nil,
      List.getLast?_concat]
    rw [hs2]

/-- Witness for C5 (amended): binding builder 1 (`users`) into builder 0
(`posts`) as `active_users` and then calling `limit(5)` on builder 1
makes the stored sub-query carry `limit = 5`. -/
theorem c5_witness :
    ((0 : Nat) ≠ 1 ∧ 0 < c5Heap.length ∧ 1 < c5Heap.length) ∧
    ((storedSubs (bwith c5Heap 0 "active_users" 1) 0).getLast?
        = some ("active_users", hGet c5Heap 1) ∧
      (storedSubs (applyOp (.limitOp 5) (bwith c5Heap 0 "active_users" 1) 1) 0).getLast?
        = some ("active_users", applyOpAst (.limitOp 5) (hGet c5Heap 1))) :=
  ⟨⟨by decide, by decide, by decide⟩,
    c5_with_captures_by_reference c5Heap 0 1 "active_users" (.limitOp 5)
      (by decide) (by decide) (by decide)⟩

end SqlTs
